import Mathlib

/-
Shallow embedding of src/src/App.tsx, a small color-palette generator.

Modelling conventions:
- JS strings are modelled as List Char.
- JS numbers are modelled as ℚ (exact arithmetic) where fractional values
  occur, and as ℕ where the reference only ever holds small non-negative
  integers.
- Math.random() results are passed in as explicit rational parameters,
  each assumed to lie in [0, 1) (the contract of Math.random).
- parseInt failure (NaN) is modelled as none.
-/

/-- Numeric value of a hex digit character (0-9, a-f, A-F), none on any
other character.  Models the digit handling of parseInt(s, 16). -/
def hexDigitVal (c : Char) : Option ℕ :=
  if 48 ≤ c.toNat ∧ c.toNat ≤ 57 then some (c.toNat - 48)
  else if 97 ≤ c.toNat ∧ c.toNat ≤ 102 then some (c.toNat - 87)
  else if 65 ≤ c.toNat ∧ c.toNat ≤ 70 then some (c.toNat - 55)
  else none

/-- Accumulates the value of the maximal run of leading hex digits,
stopping at the first non-digit, like parseInt does. -/
def parseIntHexAux : List Char → ℕ → ℕ
  | [], acc => acc
  | c :: rest, acc =>
    match hexDigitVal c with
    | some v => parseIntHexAux rest (16 * acc + v)
    | none => acc

/-- Model of parseInt(s, 16) on inputs without leading whitespace, sign or
a 0x marker (the only inputs hexToRgb feeds it): none (NaN) when the first
character is not a hex digit, otherwise the value of the maximal run of
leading hex digits. -/
def parseIntHex (s : List Char) : Option ℕ :=
  match s with
  | [] => none
  | c :: _ =>
    match hexDigitVal c with
    | some _ => some (parseIntHexAux s 0)
    | none => none

/-- Model of String.prototype.slice(a, b) for 0 ≤ a ≤ b. -/
def jsSlice (s : List Char) (a b : ℕ) : List Char := (s.drop a).take (b - a)

/-- hexToRgb from App.tsx: parses character positions 1-2, 3-4 and 5-6 of a
#RRGGBB string as hex integers.  A none channel models the NaN the
reference silently produces on malformed input. -/
def hexToRgb (hex : List Char) : Option ℕ × Option ℕ × Option ℕ :=
  (parseIntHex (jsSlice hex 1 3),
   parseIntHex (jsSlice hex 3 5),
   parseIntHex (jsSlice hex 5 7))

/-- Lowercase hex digit character for a value below 16. -/
def hexChar (v : ℕ) : Char := Char.ofNat (if v < 10 then 48 + v else 87 + v)

/-- Two-digit lowercase hex encoding of a byte. -/
def hexByte (n : ℕ) : List Char := [hexChar (n / 16), hexChar (n % 16)]

/-- Modelled from the spec: re-encoding an RGB triple as a 6-hex-digit
string with a leading number sign, the canonical serialization of a Color
in the data model section of the spec. -/
def encodeRgbHex (r g b : ℕ) : List Char :=
  '#' :: (hexByte r ++ hexByte g ++ hexByte b)

/-- ASCII lowercase code of a character; case-insensitive equality of two
strings is equality of their lowerCode sequences. -/
def lowerCode (c : Char) : ℕ :=
  if 65 ≤ c.toNat ∧ c.toNat ≤ 90 then c.toNat + 32 else c.toNat

theorem toNat_ofNat_valid (n : ℕ) (h : n < 55296) : (Char.ofNat n).toNat = n := by
  unfold Char.ofNat
  split
  · rfl
  · exact absurd (Or.inl (by exact_mod_cast h)) (by assumption)

theorem hexDigitVal_lt {c : Char} {v : ℕ} (h : hexDigitVal c = some v) : v < 16 := by
  unfold hexDigitVal at h
  split_ifs at h <;> injection h with hv <;> omega

theorem hexChar_toNat (v : ℕ) (h : v < 16) :
    (hexChar v).toNat = if v < 10 then 48 + v else 87 + v := by
  by_cases h10 : v < 10 <;> simp only [hexChar, h10, if_true, if_false] <;>
    exact toNat_ofNat_valid _ (by omega)

theorem lowerCode_hexChar {c : Char} {v : ℕ} (h : hexDigitVal c = some v) :
    lowerCode (hexChar v) = lowerCode c := by
  have hv : v < 16 := hexDigitVal_lt h
  unfold hexDigitVal at h
  split_ifs at h with h1 h2 h3 <;> injection h with hveq <;>
    simp only [lowerCode, hexChar_toNat v hv] <;> split_ifs <;> omega

theorem parseIntHex_two {c1 c2 : Char} {v1 v2 : ℕ}
    (h1 : hexDigitVal c1 = some v1) (h2 : hexDigitVal c2 = some v2) :
    parseIntHex [c1, c2] = some (16 * v1 + v2) := by
  simp [parseIntHex, parseIntHexAux, h1, h2]

theorem hexByte_split {v1 v2 : ℕ} (h1 : v1 < 16) (h2 : v2 < 16) :
    hexByte (16 * v1 + v2) = [hexChar v1, hexChar v2] := by
  unfold hexByte
  have e1 : (16 * v1 + v2) / 16 = v1 := by omega
  have e2 : (16 * v1 + v2) % 16 = v2 := by omega
  rw [e1, e2]

/-- C1: for every valid hex color string (number sign followed by six hex
digits), hexToRgb yields three channel integers each in [0,255], and
re-encoding that RGB triple as a 6-hex-digit string with leading number
sign yields the original string up to letter case. -/
theorem hexToRgb_roundTrip (d1 d2 d3 d4 d5 d6 : Char)
    (h1 : (hexDigitVal d1).isSome) (h2 : (hexDigitVal d2).isSome)
    (h3 : (hexDigitVal d3).isSome) (h4 : (hexDigitVal d4).isSome)
    (h5 : (hexDigitVal d5).isSome) (h6 : (hexDigitVal d6).isSome) :
    ∃ r g b : ℕ,
      hexToRgb ['#', d1, d2, d3, d4, d5, d6] = (some r, some g, some b) ∧
      r ≤ 255 ∧ g ≤ 255 ∧ b ≤ 255 ∧
      (encodeRgbHex r g b).map lowerCode =
        (['#', d1, d2, d3, d4, d5, d6]).map lowerCode := by
  obtain ⟨v1, hv1⟩ := Option.isSome_iff_exists.mp h1
  obtain ⟨v2, hv2⟩ := Option.isSome_iff_exists.mp h2
  obtain ⟨v3, hv3⟩ := Option.isSome_iff_exists.mp h3
  obtain ⟨v4, hv4⟩ := Option.isSome_iff_exists.mp h4
  obtain ⟨v5, hv5⟩ := Option.isSome_iff_exists.mp h5
  obtain ⟨v6, hv6⟩ := Option.isSome_iff_exists.mp h6
  have b1 := hexDigitVal_lt hv1
  have b2 := hexDigitVal_lt hv2
  have b3 := hexDigitVal_lt hv3
  have b4 := hexDigitVal_lt hv4
  have b5 := hexDigitVal_lt hv5
  have b6 := hexDigitVal_lt hv6
  refine ⟨16 * v1 + v2, 16 * v3 + v4, 16 * v5 + v6, ?_, by omega, by omega, by omega, ?_⟩
  · have e1 : jsSlice ['#', d1, d2, d3, d4, d5, d6] 1 3 = [d1, d2] := rfl
    have e2 : jsSlice ['#', d1, d2, d3, d4, d5, d6] 3 5 = [d3, d4] := rfl
    have e3 : jsSlice ['#', d1, d2, d3, d4, d5, d6] 5 7 = [d5, d6] := rfl
    unfold hexToRgb
    rw [e1, e2, e3, parseIntHex_two hv1 hv2, parseIntHex_two hv3 hv4,
      parseIntHex_two hv5 hv6]
  · unfold encodeRgbHex
    rw [hexByte_split b1 b2, hexByte_split b3 b4, hexByte_split b5 b6]
    simp only [List.map, List.cons_append, List.nil_append]
    rw [lowerCode_hexChar hv1, lowerCode_hexChar hv2, lowerCode_hexChar hv3,
      lowerCode_hexChar hv4, lowerCode_hexChar hv5, lowerCode_hexChar hv6]

/-- Witness for C1 at the concrete input "#3A6b9F". -/
theorem hexToRgb_roundTrip_witness :
    ∃ r g b : ℕ,
      hexToRgb ['#', '3', 'A', '6', 'b', '9', 'F'] = (some r, some g, some b) ∧
      r ≤ 255 ∧ g ≤ 255 ∧ b ≤ 255 ∧
      (encodeRgbHex r g b).map lowerCode =
        (['#', '3', 'A', '6', 'b', '9', 'F']).map lowerCode :=
  hexToRgb_roundTrip '3' 'A' '6' 'b' '9' 'F'
    (by decide) (by decide) (by decide) (by decide) (by decide) (by decide)

/-- Core of rgbToHsl after the channels are normalized to [0,1]; follows
the reference body literally, including the switch on which channel equals
the maximum (the final 0 models the no-case-matched path of the switch,
where h would stay 0; it is unreachable). -/
def hslCore (r g b : ℚ) : ℚ × ℚ × ℚ :=
  let maxc := max r (max g b)
  let minc := min r (min g b)
  let l : ℚ := (maxc + minc) / 2
  if maxc = minc then (0, 0, l * 100)
  else
    let d := maxc - minc
    let s := if l > 1 / 2 then d / (2 - maxc - minc) else d / (maxc + minc)
    let h :=
      if maxc = r then (g - b) / d + (if g < b then 6 else 0)
      else if maxc = g then (b - r) / d + 2
      else if maxc = b then (r - g) / d + 4
      else 0
    (h / 6 * 360, s * 100, l * 100)

/-- rgbToHsl from App.tsx: each channel divided by 255, then the standard
six-sector conversion, hue scaled to degrees and saturation and lightness
to percent. -/
def rgbToHsl (r g b : ℕ) : ℚ × ℚ × ℚ :=
  hslCore ((r : ℚ) / 255) ((g : ℚ) / 255) ((b : ℚ) / 255)

theorem hslCore_bounds {r g b : ℚ}
    (hr0 : 0 ≤ r) (hr1 : r ≤ 1) (hg0 : 0 ≤ g) (hg1 : g ≤ 1)
    (hb0 : 0 ≤ b) (hb1 : b ≤ 1) :
    0 ≤ (hslCore r g b).1 ∧ (hslCore r g b).1 < 360 ∧
    0 ≤ (hslCore r g b).2.1 ∧ (hslCore r g b).2.1 ≤ 100 ∧
    0 ≤ (hslCore r g b).2.2 ∧ (hslCore r g b).2.2 ≤ 100 := by
  have hM_r : r ≤ max r (max g b) := le_max_left _ _
  have hM_g : g ≤ max r (max g b) := le_trans (le_max_left _ _) (le_max_right _ _)
  have hM_b : b ≤ max r (max g b) := le_trans (le_max_right _ _) (le_max_right _ _)
  have hm_r : min r (min g b) ≤ r := min_le_left _ _
  have hm_g : min r (min g b) ≤ g := le_trans (min_le_right _ _) (min_le_left _ _)
  have hm_b : min r (min g b) ≤ b := le_trans (min_le_right _ _) (min_le_right _ _)
  have hM1 : max r (max g b) ≤ 1 := max_le hr1 (max_le hg1 hb1)
  have hm0 : 0 ≤ min r (min g b) := le_min hr0 (le_min hg0 hb0)
  have hmM : min r (min g b) ≤ max r (max g b) := le_trans hm_r hM_r
  simp only [hslCore]
  by_cases heq : max r (max g b) = min r (min g b)
  · rw [if_pos heq]
    refine ⟨le_refl 0, by norm_num, le_refl 0, by norm_num, ?_, ?_⟩ <;>
      simp only [] <;> linarith
  · rw [if_neg heq]
    have hlt : min r (min g b) < max r (max g b) :=
      lt_of_le_of_ne hmM (fun hh => heq hh.symm)
    have hd : (0 : ℚ) < max r (max g b) - min r (min g b) := by linarith
    set M := max r (max g b) with hMdef
    set m := min r (min g b) with hmdef
    have hs_bounds :
        0 ≤ (if (M + m) / 2 > 1 / 2 then (M - m) / (2 - M - m) else (M - m) / (M + m)) ∧
        (if (M + m) / 2 > 1 / 2 then (M - m) / (2 - M - m) else (M - m) / (M + m)) ≤ 1 := by
      split_ifs with hl
      · have hpos : (0 : ℚ) < 2 - M - m := by linarith
        constructor
        · exact div_nonneg (by linarith) (le_of_lt hpos)
        · rw [div_le_one hpos]; linarith
      · have hpos : (0 : ℚ) < M + m := by
          rcases lt_or_le 0 m with hm | hm
          · linarith
          · have : m = 0 := le_antisymm (by linarith) hm0
            linarith
        constructor
        · exact div_nonneg (by linarith) (le_of_lt hpos)
        · rw [div_le_one hpos]; linarith
    have hh_bounds :
        0 ≤ (if M = r then (g - b) / (M - m) + (if g < b then 6 else 0)
             else if M = g then (b - r) / (M - m) + 2
             else if M = b then (r - g) / (M - m) + 4
             else 0) ∧
        (if M = r then (g - b) / (M - m) + (if g < b then 6 else 0)
         else if M = g then (b - r) / (M - m) + 2
         else if M = b then (r - g) / (M - m) + 4
         else 0) < 6 := by
      split_ifs with hMr hgb hMg hMb
      · -- max is r, g < b : hue sector [5, 6)
        have hneg : (g - b) / (M - m) < 0 :=
          div_neg_of_neg_of_pos (by linarith) hd
        have hge : (-1 : ℚ) ≤ (g - b) / (M - m) :=
          (le_div_iff hd).mpr (by linarith)
        constructor <;> linarith
      · -- max is r, g ≥ b : hue sector [0, 1]
        have hle : (g - b) / (M - m) ≤ 1 := by
          rw [div_le_one hd]; linarith
        have hge : (0 : ℚ) ≤ (g - b) / (M - m) :=
          div_nonneg (by simp at hgb; linarith) (le_of_lt hd)
        constructor <;> linarith
      · -- max is g : hue sector [1, 3]
        have hle : (b - r) / (M - m) ≤ 1 := by
          rw [div_le_one hd]; linarith
        have hge : (-1 : ℚ) ≤ (b - r) / (M - m) :=
          (le_div_iff hd).mpr (by linarith)
        constructor <;> linarith
      · -- max is b : hue sector [3, 5]
        have hle : (r - g) / (M - m) ≤ 1 := by
          rw [div_le_one hd]; linarith
        have hge : (-1 : ℚ) ≤ (r - g) / (M - m) :=
          (le_div_iff hd).mpr (by linarith)
        constructor <;> linarith
      · -- unreachable: the maximum equals one of the three channels
        exfalso
        rcases max_choice r (max g b) with h1 | h1
        · exact hMr (hMdef.trans h1)
        · rcases max_choice g b with h2 | h2
          · exact hMg (hMdef.trans (h1.trans h2))
          · exact hMb (hMdef.trans (h1.trans h2))
    refine ⟨?_, ?_, ?_, ?_, ?_, ?_⟩ <;> simp only [] <;>
      [skip; skip; skip; skip; skip; skip] <;> first
      | (obtain ⟨h1, h2⟩ := hh_bounds; linarith)
      | (obtain ⟨h1, h2⟩ := hs_bounds; linarith)
      | linarith

/-- C3: for every RGB triple with each channel in [0,255], rgbToHsl yields
hue in [0,360), saturation in [0,100] and lightness in [0,100]. -/
theorem rgbToHsl_ranges (r g b : ℕ) (hr : r ≤ 255) (hg : g ≤ 255) (hb : b ≤ 255) :
    0 ≤ (rgbToHsl r g b).1 ∧ (rgbToHsl r g b).1 < 360 ∧
    0 ≤ (rgbToHsl r g b).2.1 ∧ (rgbToHsl r g b).2.1 ≤ 100 ∧
    0 ≤ (rgbToHsl r g b).2.2 ∧ (rgbToHsl r g b).2.2 ≤ 100 := by
  unfold rgbToHsl
  have hr' : ((r : ℚ)) ≤ 255 := by exact_mod_cast hr
  have hg' : ((g : ℚ)) ≤ 255 := by exact_mod_cast hg
  have hb' : ((b : ℚ)) ≤ 255 := by exact_mod_cast hb
  exact hslCore_bounds
    (by positivity) (by rw [div_le_one (by norm_num)]; exact hr')
    (by positivity) (by rw [div_le_one (by norm_num)]; exact hg')
    (by positivity) (by rw [div_le_one (by norm_num)]; exact hb')

/-- Witness for C3 at the concrete input (51, 102, 153). -/
theorem rgbToHsl_ranges_witness :
    0 ≤ (rgbToHsl 51 102 153).1 ∧ (rgbToHsl 51 102 153).1 < 360 ∧
    0 ≤ (rgbToHsl 51 102 153).2.1 ∧ (rgbToHsl 51 102 153).2.1 ≤ 100 ∧
    0 ≤ (rgbToHsl 51 102 153).2.2 ∧ (rgbToHsl 51 102 153).2.2 ≤ 100 :=
  rgbToHsl_ranges 51 102 153 (by norm_num) (by norm_num) (by norm_num)

/-- C8: rgbToHsl on an equal-channel triple (the achromatic case, where the
maximum equals the minimum) yields saturation 0 and hue 0. -/
theorem rgbToHsl_achromatic (v : ℕ) (h : v ≤ 255) :
    (rgbToHsl v v v).1 = 0 ∧ (rgbToHsl v v v).2.1 = 0 := by
  unfold rgbToHsl hslCore
  simp [max_self, min_self]

/-- Witness for C8 at the concrete input 77. -/
theorem rgbToHsl_achromatic_witness :
    (rgbToHsl 77 77 77).1 = 0 ∧ (rgbToHsl 77 77 77).2.1 = 0 :=
  rgbToHsl_achromatic 77 (by norm_num)

/-- The shade ramp computed in ColorSwatch: five triples, the i-th holding
hue and saturation fixed and scaling lightness by the factor 1 - i*0.2.
The reference wraps each triple in a CSS hsl(...) string; the wrapper is
presentational and carries exactly these three numbers. -/
def shades (h s l : ℚ) : List (ℚ × ℚ × ℚ) :=
  (List.range 5).map (fun i => (h, s, l * (1 - (i : ℚ) * 0.2)))

/-- C4: the shade ramp holds hue and saturation fixed and scales the base
lightness by 1 - i*0.2 for i in [0,5); the lightness sequence is
non-increasing and its first element is the base lightness. -/
theorem shades_ramp (h s l : ℚ) (hl : 0 ≤ l) :
    shades h s l =
      [(h, s, l * (1 - 0 * 0.2)), (h, s, l * (1 - 1 * 0.2)),
       (h, s, l * (1 - 2 * 0.2)), (h, s, l * (1 - 3 * 0.2)),
       (h, s, l * (1 - 4 * 0.2))] ∧
    List.Chain' (fun a b => b ≤ a) ((shades h s l).map (fun t => t.2.2)) ∧
    ((shades h s l).map (fun t => t.2.2)).head? = some l ∧
    ∀ t ∈ shades h s l, t.1 = h ∧ t.2.1 = s := by
  have hrange : List.range 5 = [0, 1, 2, 3, 4] := rfl
  refine ⟨?_, ?_, ?_, ?_⟩
  · simp only [shades, hrange, List.map]
    norm_num
  · simp only [shades, hrange, List.map, List.chain'_cons, List.chain'_singleton,
      and_true]
    norm_num
    refine ⟨by linarith, by linarith, by linarith, by linarith⟩
  · simp only [shades, hrange, List.map, List.head?]
    norm_num
  · intro t ht
    simp only [shades, hrange, List.map, List.mem_cons, List.not_mem_nil,
      or_false] at ht
    rcases ht with h1 | h1 | h1 | h1 | h1 <;> subst h1 <;> exact ⟨rfl, rfl⟩

/-- Witness for C4 at the concrete base HSL (210, 50, 40). -/
theorem shades_ramp_witness :
    shades 210 50 40 =
      [(210, 50, 40 * (1 - 0 * 0.2)), (210, 50, 40 * (1 - 1 * 0.2)),
       (210, 50, 40 * (1 - 2 * 0.2)), (210, 50, 40 * (1 - 3 * 0.2)),
       (210, 50, 40 * (1 - 4 * 0.2))] ∧
    List.Chain' (fun a b => b ≤ a) ((shades 210 50 40).map (fun t => t.2.2)) ∧
    ((shades 210 50 40).map (fun t => t.2.2)).head? = some 40 ∧
    ∀ t ∈ shades 210 50 40, t.1 = 210 ∧ t.2.1 = 50 :=
  shades_ramp 210 50 40 (by norm_num)

/-- A palette entry: a hex color string plus a user-editable display name,
the shape of the objects held in the palette state of App. -/
structure PaletteEntry where
  color : List Char
  name : List Char
deriving DecidableEq

/-- The adjustments state of App: hue, saturation and brightness deltas. -/
structure Adjustments where
  hue : ℚ
  saturation : ℚ
  brightness : ℚ
deriving DecidableEq

/-- The whole mutable state of App: the palette entry list plus the
adjustments record. -/
structure Session where
  palette : List PaletteEntry
  adjustments : Adjustments
deriving DecidableEq

/-- updateName from App.tsx (renamed: the plain name collides with a Lean builtin): positional map replacing the name of the item
whose index matches, leaving every other item alone. -/
def updateEntryName (prev : List PaletteEntry) (index : ℕ) (nm : List Char) :
    List PaletteEntry :=
  prev.mapIdx (fun i item => if i = index then { item with name := nm } else item)

/-- C6: renaming at an in-bounds index replaces only the name of the entry
at that position, keeps its color and every other entry unchanged, and
preserves the length; renaming at an out-of-bounds index leaves the whole
palette unchanged. -/
theorem updateEntryName_spec (prev : List PaletteEntry) (index : ℕ) (nm : List Char)
    (d : PaletteEntry) :
    (updateEntryName prev index nm).length = prev.length ∧
    (index < prev.length →
      ((updateEntryName prev index nm).getD index d).name = nm ∧
      ((updateEntryName prev index nm).getD index d).color = (prev.getD index d).color) ∧
    (∀ j, j < prev.length → j ≠ index →
      (updateEntryName prev index nm).getD j d = prev.getD j d) ∧
    (prev.length ≤ index → updateEntryName prev index nm = prev) := by
  have hlen : (updateEntryName prev index nm).length = prev.length :=
    List.length_mapIdx
  refine ⟨hlen, ?_, ?_, ?_⟩
  · intro hidx
    have hidx' : index < (updateEntryName prev index nm).length := by rw [hlen]; exact hidx
    rw [List.getD_eq_getElem?_getD, List.getElem?_eq_getElem hidx',
      List.getD_eq_getElem?_getD, List.getElem?_eq_getElem hidx]
    simp only [updateEntryName, List.getElem_mapIdx, if_pos rfl, Option.getD_some]
    exact ⟨rfl, rfl⟩
  · intro j hj hne
    have hj' : j < (updateEntryName prev index nm).length := by rw [hlen]; exact hj
    rw [List.getD_eq_getElem?_getD, List.getElem?_eq_getElem hj',
      List.getD_eq_getElem?_getD, List.getElem?_eq_getElem hj]
    simp only [updateEntryName, List.getElem_mapIdx, if_neg hne, Option.getD_some]
  · intro hle
    apply List.ext_getElem hlen
    intro i hi1 hi2
    have : i ≠ index := by omega
    simp only [updateEntryName, List.getElem_mapIdx, if_neg this]

/-- Witness for C6: an in-bounds rename at index 1 and an out-of-bounds
rename at index 7 on a concrete two-entry palette. -/
theorem updateEntryName_spec_witness :
    (((updateEntryName [⟨['#', 'a'], ['x']⟩, ⟨['#', 'b'], ['y']⟩] 1 ['z']).getD 1
        ⟨[], []⟩).name = ['z'] ∧
      ((updateEntryName [⟨['#', 'a'], ['x']⟩, ⟨['#', 'b'], ['y']⟩] 1 ['z']).getD 1
        ⟨[], []⟩).color =
        (([⟨['#', 'a'], ['x']⟩, ⟨['#', 'b'], ['y']⟩] :
          List PaletteEntry).getD 1 ⟨[], []⟩).color) ∧
    updateEntryName [⟨['#', 'a'], ['x']⟩, ⟨['#', 'b'], ['y']⟩] 7 ['z'] =
      ([⟨['#', 'a'], ['x']⟩, ⟨['#', 'b'], ['y']⟩] : List PaletteEntry) :=
  ⟨(updateEntryName_spec [⟨['#', 'a'], ['x']⟩, ⟨['#', 'b'], ['y']⟩] 1 ['z']
      ⟨[], []⟩).2.1 (by norm_num),
   (updateEntryName_spec [⟨['#', 'a'], ['x']⟩, ⟨['#', 'b'], ['y']⟩] 7 ['z']
      ⟨[], []⟩).2.2.2 (by norm_num)⟩

/-- Math.floor of a non-negative JS number, as a natural. -/
def jsFloorNat (q : ℚ) : ℕ := (⌊q⌋).toNat

/-- The JS remainder a % b for a non-negative dividend and positive
divisor, where it agrees with the mathematical floor-based remainder. -/
def jsMod (a b : ℚ) : ℚ := a - b * (⌊a / b⌋ : ℚ)

/-- Little-endian lowercase hex digits of a natural. -/
def toHexRev (n : ℕ) : List Char :=
  if n < 16 then [hexChar n]
  else hexChar (n % 16) :: toHexRev (n / 16)
termination_by n
decreasing_by simp_wf; omega

/-- Number.prototype.toString(16) for a natural: minimal-length lowercase
hex digits, the single digit 0 for zero. -/
def natToHex (n : ℕ) : List Char := (toHexRev n).reverse

/-- String.prototype.padStart(6, "0"). -/
def padStart6 (s : List Char) : List Char :=
  List.replicate (6 - s.length) '0' ++ s

/-- The color string built for one palette slot: a value rendered in hex,
left-padded with zeros to six digits, behind a number sign. -/
def hexColorString (n : ℕ) : List Char := '#' :: padStart6 (natToHex n)

/-- The contract of Math.random(): a value in [0, 1). -/
def mathRandomSpec (u : ℚ) : Prop := 0 ≤ u ∧ u < 1

/-- generateHarmoniousPalette from App.tsx.  The Math.random() results are
passed in explicitly: baseRand for the base hue draw and rand i for the
draw of slot i.  Each slot computes a rotated hue (kept here as the unused
binding it is in the source) and then returns an independently drawn
random 24-bit color string. -/
def generateHarmoniousPalette (baseRand : ℚ) (rand : ℕ → ℚ) : List (List Char) :=
  let baseHue := baseRand * 360
  (List.range 5).map (fun (i : ℕ) =>
    let _hue := jsMod (baseHue + (i : ℚ) * 72) 360
    hexColorString (jsFloorNat (rand i * 16777215)))

/-- The eight fixed words generateColorName draws from. -/
def colorNames : List (List Char) :=
  ["Sky".toList, "Ocean".toList, "Forest".toList, "Sunset".toList,
   "Stone".toList, "Berry".toList, "Cloud".toList, "Dusk".toList]

/-- generateColorName from App.tsx: a random word from colorNames, a
hyphen, and characters 1 to 3 of the hex string.  u is the Math.random()
result of this call. -/
def generateColorName (hex : List Char) (u : ℚ) : List Char :=
  (colorNames.getD (jsFloorNat (u * (colorNames.length : ℚ))) []) ++
    '-' :: jsSlice hex 1 4

/-- handleGenerate from App.tsx: replaces the palette with freshly
generated colors, each paired with a freshly generated name, and leaves
the adjustments record alone.  nameRand i is the Math.random() result of
the generateColorName call for slot i. -/
def handleGenerate (s : Session) (baseRand : ℚ) (rand nameRand : ℕ → ℚ) :
    Session :=
  { s with
    palette := (generateHarmoniousPalette baseRand rand).mapIdx
      (fun i color => ⟨color, generateColorName color (nameRand i)⟩) }

/-- A valid color string: a number sign followed by exactly six hex
digits. -/
def isHexColor (s : List Char) : Prop :=
  s.length = 7 ∧ s.head? = some '#' ∧ ∀ c ∈ s.tail, (hexDigitVal c).isSome

instance (s : List Char) : Decidable (isHexColor s) := by
  unfold isHexColor
  infer_instance

theorem hexDigitVal_hexChar {v : ℕ} (h : v < 16) :
    hexDigitVal (hexChar v) = some v := by
  unfold hexDigitVal
  rw [hexChar_toNat v h]
  split_ifs <;> first | (congr 1; omega) | (exfalso; omega)

theorem toHexRev_length {k n : ℕ} (hk : 1 ≤ k) (h : n < 16 ^ k) :
    (toHexRev n).length ≤ k := by
  induction k generalizing n with
  | zero => omega
  | succ k ih =>
    rw [toHexRev]
    split_ifs with h16
    · simp
    · have hk1 : 1 ≤ k := by
        rcases Nat.eq_zero_or_pos k with hk0 | hk0
        · subst hk0; norm_num at h; omega
        · exact hk0
      have hdiv : n / 16 < 16 ^ k := by
        rw [Nat.div_lt_iff_lt_mul (by norm_num)]
        calc n < 16 ^ (k + 1) := h
        _ = 16 ^ k * 16 := by rw [pow_succ]
      have := ih hk1 hdiv
      simp only [List.length_cons]
      omega

theorem toHexRev_digits (n : ℕ) : ∀ c ∈ toHexRev n, (hexDigitVal c).isSome := by
  induction n using Nat.strong_induction_on with
  | _ n ih =>
    rw [toHexRev]
    split_ifs with h16
    · intro c hc
      simp only [List.mem_singleton] at hc
      subst hc
      rw [hexDigitVal_hexChar h16]
      rfl
    · intro c hc
      rcases List.mem_cons.mp hc with rfl | hc
      · rw [hexDigitVal_hexChar (Nat.mod_lt _ (by norm_num))]
        rfl
      · exact ih (n / 16) (by omega) c hc

/-- Value of a little-endian hex digit string; inverse of toHexRev. -/
def hexRevVal : List Char → ℕ
  | [] => 0
  | c :: rest => (hexDigitVal c).getD 0 + 16 * hexRevVal rest

theorem hexRevVal_toHexRev (n : ℕ) : hexRevVal (toHexRev n) = n := by
  induction n using Nat.strong_induction_on with
  | _ n ih =>
    rw [toHexRev]
    split_ifs with h16
    · simp [hexRevVal, hexDigitVal_hexChar h16]
    · have hm : n % 16 < 16 := Nat.mod_lt _ (by norm_num)
      simp only [hexRevVal, hexDigitVal_hexChar hm, Option.getD_some]
      rw [ih (n / 16) (by omega)]
      omega

theorem padStart6_length {s : List Char} (h : s.length ≤ 6) :
    (padStart6 s).length = 6 := by
  simp only [padStart6, List.length_append, List.length_replicate]
  omega

theorem padStart6_digits {s : List Char} (hs : ∀ c ∈ s, (hexDigitVal c).isSome) :
    ∀ c ∈ padStart6 s, (hexDigitVal c).isSome := by
  intro c hc
  rcases List.mem_append.mp hc with hc | hc
  · have : c = '0' := List.eq_of_mem_replicate hc
    subst this
    rfl
  · exact hs c hc

theorem natToHex_length {n : ℕ} (h : n < 16777216) : (natToHex n).length ≤ 6 := by
  unfold natToHex
  rw [List.length_reverse]
  exact toHexRev_length (by norm_num)
    (show n < 16 ^ 6 by rw [show (16 : ℕ) ^ 6 = 16777216 by norm_num]; exact h)

theorem hexColorString_valid {n : ℕ} (h : n < 16777216) :
    isHexColor (hexColorString n) := by
  refine ⟨?_, rfl, ?_⟩
  · simp only [hexColorString, List.length_cons, padStart6_length (natToHex_length h)]
  · intro c hc
    simp only [hexColorString, List.tail_cons] at hc
    refine padStart6_digits (fun c2 hc2 => ?_) c hc
    unfold natToHex at hc2
    exact toHexRev_digits n c2 (List.mem_reverse.mp hc2)

theorem hexColorString_ne_white {n : ℕ} (h : n < 16777215) :
    hexColorString n ≠ ['#', 'f', 'f', 'f', 'f', 'f', 'f'] := by
  intro he
  have he2 : padStart6 (natToHex n) = ['f', 'f', 'f', 'f', 'f', 'f'] := by
    simpa [hexColorString] using he
  have hf : natToHex n = ['f', 'f', 'f', 'f', 'f', 'f'] := by
    unfold padStart6 at he2
    rcases Nat.eq_zero_or_pos (6 - (natToHex n).length) with h0 | hpos
    · rw [h0] at he2
      simpa using he2
    · exfalso
      have hne : 6 - (natToHex n).length ≠ 0 := by omega
      obtain ⟨k, hk⟩ := Nat.exists_eq_succ_of_ne_zero hne
      rw [hk, List.replicate_succ] at he2
      have : ('0' : Char) = 'f' := by
        have := congrArg List.head? he2
        simpa using this
      exact absurd this (by decide)
  have hval := hexRevVal_toHexRev n
  have hrev : toHexRev n = ['f', 'f', 'f', 'f', 'f', 'f'] := by
    have : (natToHex n).reverse = toHexRev n := by
      simp [natToHex]
    rw [← this, hf]
    rfl
  rw [hrev] at hval
  have : hexRevVal ['f', 'f', 'f', 'f', 'f', 'f'] = 16777215 := by decide
  omega

theorem generateHarmoniousPalette_eq (baseRand : ℚ) (rand : ℕ → ℚ) :
    generateHarmoniousPalette baseRand rand =
      [hexColorString (jsFloorNat (rand 0 * 16777215)),
       hexColorString (jsFloorNat (rand 1 * 16777215)),
       hexColorString (jsFloorNat (rand 2 * 16777215)),
       hexColorString (jsFloorNat (rand 3 * 16777215)),
       hexColorString (jsFloorNat (rand 4 * 16777215))] := rfl

theorem jsFloorNat_rand_lt {u : ℚ} (h : mathRandomSpec u) :
    jsFloorNat (u * 16777215) < 16777215 := by
  obtain ⟨h0, h1⟩ := h
  have hlt : u * 16777215 < 16777215 := by
    have := mul_lt_mul_of_pos_right h1 (show (0 : ℚ) < 16777215 by norm_num)
    linarith
  have hfl : ⌊u * 16777215⌋ < (16777215 : ℤ) :=
    Int.floor_lt.mpr (by exact_mod_cast hlt)
  have hnn : 0 ≤ ⌊u * 16777215⌋ := Int.floor_nonneg.mpr (by positivity)
  unfold jsFloorNat
  omega

theorem jsFloorNat_surj {n : ℕ} (h : n < 16777215) :
    ∃ u : ℚ, mathRandomSpec u ∧ jsFloorNat (u * 16777215) = n := by
  refine ⟨(n : ℚ) / 16777215, ⟨by positivity, ?_⟩, ?_⟩
  · rw [div_lt_one (by norm_num)]
    exact_mod_cast h
  · rw [div_mul_cancel₀ _ (by norm_num : (16777215 : ℚ) ≠ 0)]
    unfold jsFloorNat
    rw [Int.floor_natCast]
    exact Int.toNat_natCast n

/-- C9: the palette generator never produces pure white, since the random
integer it formats is the floor of random * 16777215, which ranges over
[0, 16777214]; every one of those 16,777,215 values (out of the 16,777,216
possible 24-bit colors) is attainable, but 16777215 (#ffffff) is not. -/
theorem generate_never_white (baseRand : ℚ) (rand : ℕ → ℚ)
    (h : ∀ i, mathRandomSpec (rand i)) :
    ['#', 'f', 'f', 'f', 'f', 'f', 'f'] ∉ generateHarmoniousPalette baseRand rand ∧
    (∀ i, jsFloorNat (rand i * 16777215) ≤ 16777214) ∧
    (∀ n, n ≤ 16777214 → ∃ u, mathRandomSpec u ∧ jsFloorNat (u * 16777215) = n) := by
  refine ⟨?_, ?_, ?_⟩
  · rw [generateHarmoniousPalette_eq]
    intro hmem
    simp only [List.mem_cons, List.not_mem_nil, or_false] at hmem
    rcases hmem with hm | hm | hm | hm | hm <;>
      exact hexColorString_ne_white (jsFloorNat_rand_lt (h _)) hm.symm
  · intro i
    have := jsFloorNat_rand_lt (h i)
    omega
  · intro n hn
    exact jsFloorNat_surj (by omega)

/-- Witness for C9 with all random draws at 0. -/
theorem generate_never_white_witness :
    ['#', 'f', 'f', 'f', 'f', 'f', 'f'] ∉
      generateHarmoniousPalette 0 (fun _ => 0) ∧
    (∀ i, jsFloorNat ((fun _ : ℕ => (0 : ℚ)) i * 16777215) ≤ 16777214) ∧
    (∀ n, n ≤ 16777214 → ∃ u, mathRandomSpec u ∧ jsFloorNat (u * 16777215) = n) :=
  generate_never_white 0 (fun _ => 0) (fun _ => ⟨le_refl 0, by norm_num⟩)

/-- Counterexample to C2 as stated: no run of the palette generator, over
any Math.random() results in [0,1), ever emits #ffffff, so the slots are
not drawn from all 16,777,216 possible RGB values. -/
theorem generate_full_range_cex :
    ¬ ∃ (baseRand : ℚ) (rand : ℕ → ℚ),
        (∀ i, mathRandomSpec (rand i)) ∧
        ['#', 'f', 'f', 'f', 'f', 'f', 'f'] ∈
          generateHarmoniousPalette baseRand rand := by
  rintro ⟨baseRand, rand, hr, hmem⟩
  rw [generateHarmoniousPalette_eq] at hmem
  simp only [List.mem_cons, List.not_mem_nil, or_false] at hmem
  rcases hmem with hm | hm | hm | hm | hm <;>
    exact hexColorString_ne_white (jsFloorNat_rand_lt (hr _)) hm.symm

/-- C2 as amended: the generator computes a rotated hue per slot and
discards it (its output does not depend on the base hue draw), and each of
the 5 slots is an independently drawn color, the floor of random *
16777215 encoded as a 6-hex-digit string behind a number sign; the drawn
integer ranges over the 16,777,215 values 0..16777214 (every one
attainable), i.e. over all 24-bit colors except #ffffff. -/
theorem generate_palette_amended (baseRand baseRand' : ℚ) (rand : ℕ → ℚ)
    (h : ∀ i, mathRandomSpec (rand i)) :
    generateHarmoniousPalette baseRand rand =
      generateHarmoniousPalette baseRand' rand ∧
    generateHarmoniousPalette baseRand rand =
      (List.range 5).map (fun i => hexColorString (jsFloorNat (rand i * 16777215))) ∧
    (∀ i, jsFloorNat (rand i * 16777215) < 16777215) ∧
    (∀ n, n < 16777215 → ∃ u, mathRandomSpec u ∧ jsFloorNat (u * 16777215) = n) :=
  ⟨by rw [generateHarmoniousPalette_eq, generateHarmoniousPalette_eq],
   rfl,
   fun i => jsFloorNat_rand_lt (h i),
   fun n hn => jsFloorNat_surj hn⟩

/-- Witness for the amended C2 with two different base hue draws. -/
theorem generate_palette_amended_witness :
    generateHarmoniousPalette (1/2) (fun _ => 1/2) =
      generateHarmoniousPalette (1/4) (fun _ => 1/2) ∧
    generateHarmoniousPalette (1/2) (fun _ => 1/2) =
      (List.range 5).map
        (fun i => hexColorString (jsFloorNat ((fun _ : ℕ => (1 : ℚ)/2) i * 16777215))) ∧
    (∀ i, jsFloorNat ((fun _ : ℕ => (1 : ℚ)/2) i * 16777215) < 16777215) ∧
    (∀ n, n < 16777215 → ∃ u, mathRandomSpec u ∧ jsFloorNat (u * 16777215) = n) :=
  generate_palette_amended (1/2) (1/4) (fun _ => 1/2)
    (fun _ => ⟨by norm_num, by norm_num⟩)

theorem generateColorName_ne_nil (hex : List Char) (u : ℚ) :
    generateColorName hex u ≠ [] := by
  unfold generateColorName
  intro hc
  rcases List.append_eq_nil.mp hc with ⟨h1, h2⟩
  exact List.cons_ne_nil _ _ h2

theorem mem_mapIdx_entries {l : List (List Char)} {nr : ℕ → ℚ} {e : PaletteEntry}
    (he : e ∈ l.mapIdx
      (fun i color => (⟨color, generateColorName color (nr i)⟩ : PaletteEntry))) :
    ∃ color ∈ l, ∃ u, e = ⟨color, generateColorName color u⟩ := by
  rw [List.mapIdx_eq_enum_map] at he
  rcases List.mem_map.mp he with ⟨⟨i, color⟩, hp, hfe⟩
  refine ⟨color, ?_, nr i, hfe.symm⟩
  rw [List.enum_eq_zip_range] at hp
  exact (List.of_mem_zip hp).2

/-- C7: regenerating always yields exactly 5 entries, each with a valid
6-hex-digit color string and a non-empty name, and leaves the adjustments
record unchanged. -/
theorem handleGenerate_spec (s : Session) (baseRand : ℚ) (rand nameRand : ℕ → ℚ)
    (hrand : ∀ i, mathRandomSpec (rand i)) :
    (handleGenerate s baseRand rand nameRand).palette.length = 5 ∧
    (∀ e ∈ (handleGenerate s baseRand rand nameRand).palette,
      isHexColor e.color ∧ e.name ≠ []) ∧
    (handleGenerate s baseRand rand nameRand).adjustments = s.adjustments := by
  refine ⟨?_, ?_, rfl⟩
  · simp [handleGenerate, List.length_mapIdx, generateHarmoniousPalette_eq]
  · intro e he
    simp only [handleGenerate] at he
    obtain ⟨color, hcolor, u, rfl⟩ := mem_mapIdx_entries he
    rw [generateHarmoniousPalette_eq] at hcolor
    simp only [List.mem_cons, List.not_mem_nil, or_false] at hcolor
    constructor
    · rcases hcolor with hc | hc | hc | hc | hc
      all_goals subst hc
      · exact hexColorString_valid (by have := jsFloorNat_rand_lt (hrand 0); omega)
      · exact hexColorString_valid (by have := jsFloorNat_rand_lt (hrand 1); omega)
      · exact hexColorString_valid (by have := jsFloorNat_rand_lt (hrand 2); omega)
      · exact hexColorString_valid (by have := jsFloorNat_rand_lt (hrand 3); omega)
      · exact hexColorString_valid (by have := jsFloorNat_rand_lt (hrand 4); omega)
    · exact generateColorName_ne_nil _ _
/-- Witness for C7 on the empty session with all random draws at 0. -/
theorem handleGenerate_spec_witness :
    (handleGenerate ⟨[], ⟨0, 0, 0⟩⟩ 0 (fun _ => 0) (fun _ => 0)).palette.length = 5 ∧
    (∀ e ∈ (handleGenerate ⟨[], ⟨0, 0, 0⟩⟩ 0 (fun _ => 0) (fun _ => 0)).palette,
      isHexColor e.color ∧ e.name ≠ []) ∧
    (handleGenerate ⟨[], ⟨0, 0, 0⟩⟩ 0 (fun _ => 0) (fun _ => 0)).adjustments =
      (⟨[], ⟨0, 0, 0⟩⟩ : Session).adjustments :=
  handleGenerate_spec ⟨[], ⟨0, 0, 0⟩⟩ 0 (fun _ => 0) (fun _ => 0)
    (fun _ => ⟨le_refl 0, by norm_num⟩)

/-- Math.round on a non-negative JS number: floor of x + 1/2 (ties round
up, as in JS). -/
def jsRound (q : ℚ) : ℤ := ⌊q + 1 / 2⌋

/-- Little-endian decimal digits of a natural. -/
def toDecRev (n : ℕ) : List Char :=
  if n < 10 then [Char.ofNat (48 + n)]
  else Char.ofNat (48 + n % 10) :: toDecRev (n / 10)
termination_by n
decreasing_by simp_wf; omega

/-- Decimal rendering of a natural, as JS string interpolation renders a
non-negative integer. -/
def natToDec (n : ℕ) : List Char := (toDecRev n).reverse

/-- The HSL clipboard line of ColorSwatch: each rgbToHsl component passed
through Math.round and interpolated as "h, s%, l%".  The rounded values
are non-negative for every RGB input, so the toNat view is exact. -/
def hslClipboard (r g b : ℕ) : List Char :=
  natToDec (jsRound (rgbToHsl r g b).1).toNat ++ ", ".toList ++
  natToDec (jsRound (rgbToHsl r g b).2.1).toNat ++ "%, ".toList ++
  natToDec (jsRound (rgbToHsl r g b).2.2).toNat ++ ['%']

/-- C10: at the RGB input (255, 0, 1) the hue returned by rgbToHsl is
strictly below 360 but above 359.5, so the clipboard string displays the
rounded hue 360. -/
theorem hslClipboard_360 :
    (rgbToHsl 255 0 1).1 < 360 ∧ (359.5 : ℚ) < (rgbToHsl 255 0 1).1 ∧
    jsRound (rgbToHsl 255 0 1).1 = 360 ∧
    hslClipboard 255 0 1 =
      ['3', '6', '0', ',', ' ', '1', '0', '0', '%', ',', ' ', '5', '0', '%'] := by
  have hval : rgbToHsl 255 0 1 = (6116 / 17, 100, 50) := by
    norm_num [rgbToHsl, hslCore, max_def, min_def]
  have hround : jsRound ((6116 : ℚ) / 17) = 360 := by
    unfold jsRound
    rw [Int.floor_eq_iff]
    norm_num
  have h100 : jsRound (100 : ℚ) = 100 := by
    unfold jsRound
    rw [Int.floor_eq_iff]
    norm_num
  have h50 : jsRound (50 : ℚ) = 50 := by
    unfold jsRound
    rw [Int.floor_eq_iff]
    norm_num
  refine ⟨by rw [hval]; norm_num, by rw [hval]; norm_num, by rw [hval]; exact hround, ?_⟩
  have d360 : natToDec 360 = ['3', '6', '0'] := by
    unfold natToDec
    rw [toDecRev, if_neg (by norm_num), toDecRev, if_neg (by norm_num),
      toDecRev, if_pos (by norm_num)]
    decide
  have d100 : natToDec 100 = ['1', '0', '0'] := by
    unfold natToDec
    rw [toDecRev, if_neg (by norm_num), toDecRev, if_neg (by norm_num),
      toDecRev, if_pos (by norm_num)]
    decide
  have d50 : natToDec 50 = ['5', '0'] := by
    unfold natToDec
    rw [toDecRev, if_neg (by norm_num), toDecRev, if_pos (by norm_num)]
    decide
  unfold hslClipboard
  rw [hval]
  rw [hround, h100, h50]
  rw [show ((360 : ℤ)).toNat = 360 from rfl, show ((100 : ℤ)).toNat = 100 from rfl,
    show ((50 : ℤ)).toNat = 50 from rfl]
  rw [d360, d100, d50]
  decide

/-- JSON.stringify escaping of one character (the QuoteJSONString rules):
quote and backslash get a backslash escape, the five named control
characters get their short escapes, the remaining control characters get a
four-digit \u escape, everything else is emitted as itself. -/
def escChar (c : Char) : List Char :=
  if c = '"' then ['\\', '"']
  else if c = '\\' then ['\\', '\\']
  else if c.toNat = 8 then ['\\', 'b']
  else if c.toNat = 9 then ['\\', 't']
  else if c.toNat = 10 then ['\\', 'n']
  else if c.toNat = 12 then ['\\', 'f']
  else if c.toNat = 13 then ['\\', 'r']
  else if c.toNat < 32 then
    ['\\', 'u', '0', '0', hexChar (c.toNat / 16), hexChar (c.toNat % 16)]
  else [c]

/-- JSON string-body escaping, character by character. -/
def escapeStr : List Char → List Char
  | [] => []
  | c :: rest => escChar c ++ escapeStr rest

/-- A JSON string literal: escaped body between double quotes. -/
def quoteJson (s : List Char) : List Char :=
  '"' :: (escapeStr s ++ ['"'])

/-- The object opener emitted by JSON.stringify(palette, null, 2) for one
entry, up to and excluding the opening quote of the color value. -/
def objOpen : List Char :=
  [Char.ofNat 123, '\n', ' ', ' ', ' ', ' ', '"', 'c', 'o', 'l', 'o', 'r',
   '"', ':', ' ']

/-- The separator between the color value and the name key. -/
def objMid : List Char :=
  [',', '\n', ' ', ' ', ' ', ' ', '"', 'n', 'a', 'm', 'e', '"', ':', ' ']

/-- The object closer: newline, two-space stepback, closing brace. -/
def objClose : List Char := ['\n', ' ', ' ', Char.ofNat 125]

/-- The separator between two array elements at indent 2. -/
def arrSep : List Char := [',', '\n', ' ', ' ']

/-- The array opener for a non-empty array at indent 2. -/
def arrOpen : List Char := ['[', '\n', ' ', ' ']

/-- The array closer for a non-empty array. -/
def arrClose : List Char := ['\n', ']']

/-- JSON.stringify(entry, null, 2) at depth 1: the two fields color and
name, in insertion order, pretty-printed with 4-space member indent and
2-space stepback. -/
def serializeEntry (e : PaletteEntry) : List Char :=
  objOpen ++ quoteJson e.color ++ objMid ++ quoteJson e.name ++ objClose

/-- The serialized array elements joined by the element separator. -/
def serializeSep : List PaletteEntry → List Char
  | [] => []
  | [e] => serializeEntry e
  | e :: e2 :: rest => serializeEntry e ++ arrSep ++ serializeSep (e2 :: rest)

/-- handleExport from App.tsx, up to the download glue: the payload
JSON.stringify(palette, null, 2).  Only the entry list is read; the
adjustments record is not serialized. -/
def exportSnapshot (s : Session) : List Char :=
  match s.palette with
  | [] => ['[', ']']
  | e :: rest => arrOpen ++ serializeSep (e :: rest) ++ arrClose

/-- The inverse of unescaping for a single-letter escape. -/
def unescChar (e : Char) : Option Char :=
  if e = '"' then some '"'
  else if e = '\\' then some '\\'
  else if e = '/' then some '/'
  else if e = 'b' then some (Char.ofNat 8)
  else if e = 't' then some (Char.ofNat 9)
  else if e = 'n' then some (Char.ofNat 10)
  else if e = 'f' then some (Char.ofNat 12)
  else if e = 'r' then some (Char.ofNat 13)
  else none

/-- Parses a JSON string body up to and including the closing quote,
unescaping as it goes; returns the body and the remaining input. -/
def parseJStr : List Char → Option (List Char × List Char)
  | [] => none
  | c :: rest =>
    if c = '"' then some ([], rest)
    else if c = '\\' then
      match rest with
      | 'u' :: h1 :: h2 :: h3 :: h4 :: rest2 =>
        match hexDigitVal h1, hexDigitVal h2, hexDigitVal h3, hexDigitVal h4 with
        | some v1, some v2, some v3, some v4 =>
          (parseJStr rest2).map
            (fun p => (Char.ofNat (((v1 * 16 + v2) * 16 + v3) * 16 + v4) :: p.1, p.2))
        | _, _, _, _ => none
      | e :: rest2 =>
        match unescChar e with
        | some u => (parseJStr rest2).map (fun p => (u :: p.1, p.2))
        | none => none
      | [] => none
    else (parseJStr rest).map (fun p => (c :: p.1, p.2))

/-- Parses a JSON string literal including its opening quote. -/
def parseJString : List Char → Option (List Char × List Char)
  | '"' :: rest => parseJStr rest
  | _ => none

/-- Consumes an expected literal prefix. -/
def parseLit (pat s : List Char) : Option (List Char) :=
  if s.take pat.length = pat then some (s.drop pat.length) else none

/-- Parses one serialized entry object; returns it and the remaining
input. -/
def parseEntryBody (s : List Char) : Option (PaletteEntry × List Char) :=
  match parseLit objOpen s with
  | none => none
  | some s1 =>
    match parseJString s1 with
    | none => none
    | some (color, s2) =>
      match parseLit objMid s2 with
      | none => none
      | some s3 =>
        match parseJString s3 with
        | none => none
        | some (nm, s4) =>
          match parseLit objClose s4 with
          | none => none
          | some s5 => some (⟨color, nm⟩, s5)

/-- Parses the comma-separated entry objects followed by the array closer;
fuel bounds the number of entries. -/
def parseEntriesLoop : ℕ → List Char → Option (List PaletteEntry)
  | 0, _ => none
  | fuel + 1, s =>
    match parseEntryBody s with
    | none => none
    | some (e, s1) =>
      match parseLit arrSep s1 with
      | some s2 =>
        match parseEntriesLoop fuel s2 with
        | none => none
        | some es => some (e :: es)
      | none =>
        match parseLit arrClose s1 with
        | some [] => some [e]
        | _ => none

/-- Parses the full export payload back into the entry list. -/
def parseExport (s : List Char) : Option (List PaletteEntry) :=
  if s = ['[', ']'] then some []
  else
    match parseLit arrOpen s with
    | some s1 => parseEntriesLoop (s1.length + 1) s1
    | none => none

theorem parseLit_append (pat rest : List Char) :
    parseLit pat (pat ++ rest) = some rest := by
  unfold parseLit
  rw [List.take_left, if_pos rfl, List.drop_left]

theorem parseJStr_escape (s rest : List Char) :
    parseJStr (escapeStr s ++ '"' :: rest) = some (s, rest) := by
  induction s with
  | nil =>
    show parseJStr ([] ++ '"' :: rest) = _
    rw [List.nil_append, parseJStr.eq_def]
    simp
  | cons c cs ih =>
    show parseJStr ((escChar c ++ escapeStr cs) ++ '"' :: rest) = _
    rw [List.append_assoc]
    unfold escChar
    split_ifs with h1 h2 h3 h4 h5 h6 h7 h8
    · subst h1
      rw [List.cons_append, List.cons_append, parseJStr.eq_def]
      simp [unescChar, ih]
    · subst h2
      rw [List.cons_append, List.cons_append, parseJStr.eq_def]
      simp [unescChar, ih]
    · have hc : Char.ofNat 8 = c := by rw [← h3, Char.ofNat_toNat]
      rw [List.cons_append, List.cons_append, parseJStr.eq_def]
      simp [unescChar, ih, hc]
      exact hc
    · have hc : Char.ofNat 9 = c := by rw [← h4, Char.ofNat_toNat]
      rw [List.cons_append, List.cons_append, parseJStr.eq_def]
      simp [unescChar, ih, hc]
      exact hc
    · have hc : Char.ofNat 10 = c := by rw [← h5, Char.ofNat_toNat]
      rw [List.cons_append, List.cons_append, parseJStr.eq_def]
      simp [unescChar, ih, hc]
      exact hc
    · have hc : Char.ofNat 12 = c := by rw [← h6, Char.ofNat_toNat]
      rw [List.cons_append, List.cons_append, parseJStr.eq_def]
      simp [unescChar, ih, hc]
      exact hc
    · have hc : Char.ofNat 13 = c := by rw [← h7, Char.ofNat_toNat]
      rw [List.cons_append, List.cons_append, parseJStr.eq_def]
      simp [unescChar, ih, hc]
      exact hc
    · have hhi : c.toNat / 16 < 16 := by omega
      have hlo : c.toNat % 16 < 16 := by omega
      have h0 : hexDigitVal '0' = some 0 := by decide
      have harith : ((0 * 16 + 0) * 16 + c.toNat / 16) * 16 + c.toNat % 16 = c.toNat := by
        omega
      rw [List.cons_append, List.cons_append, List.cons_append, List.cons_append,
        List.cons_append, List.cons_append, parseJStr.eq_def]
      simp [h0, hexDigitVal_hexChar hhi, hexDigitVal_hexChar hlo, ih, harith,
        Char.ofNat_toNat]
      have harith2 : c.toNat / 16 * 16 + c.toNat % 16 = c.toNat := by omega
      rw [harith2, Char.ofNat_toNat]
    · rw [List.cons_append, parseJStr.eq_def]
      simp [h1, h2, ih]

theorem parseJString_quote (s rest : List Char) :
    parseJString (quoteJson s ++ rest) = some (s, rest) := by
  show parseJString ('"' :: (escapeStr s ++ ['"']) ++ rest) = _
  have : ('"' :: (escapeStr s ++ ['"'])) ++ rest = '"' :: (escapeStr s ++ '"' :: rest) := by
    simp
  rw [this]
  show parseJStr (escapeStr s ++ '"' :: rest) = _
  exact parseJStr_escape s rest

theorem parseEntryBody_serialize (e : PaletteEntry) (tail : List Char) :
    parseEntryBody (serializeEntry e ++ tail) = some (e, tail) := by
  unfold serializeEntry parseEntryBody
  rw [show objOpen ++ quoteJson e.color ++ objMid ++ quoteJson e.name ++ objClose ++ tail =
      objOpen ++ (quoteJson e.color ++ (objMid ++ (quoteJson e.name ++ (objClose ++ tail))))
    from by simp [List.append_assoc]]
  simp only [parseLit_append, parseJString_quote]

theorem serializeEntry_length_pos (e : PaletteEntry) :
    1 ≤ (serializeEntry e).length := by
  simp only [serializeEntry, objOpen, List.length_append, List.length_cons]
  omega

theorem serializeSep_length (es : List PaletteEntry) :
    es.length ≤ (serializeSep es).length := by
  induction es with
  | nil => simp [serializeSep]
  | cons e rest ih =>
    cases rest with
    | nil =>
      simp only [List.length_cons, List.length_nil]
      have := serializeEntry_length_pos e
      rw [show serializeSep [e] = serializeEntry e from rfl]
      omega
    | cons e2 r2 =>
      rw [show serializeSep (e :: e2 :: r2) =
          serializeEntry e ++ arrSep ++ serializeSep (e2 :: r2) from rfl]
      simp only [List.length_append, List.length_cons]
      have h1 := serializeEntry_length_pos e
      simp only [List.length_cons] at ih
      omega

theorem parseEntriesLoop_serialize :
    ∀ (es : List PaletteEntry) (fuel : ℕ), es ≠ [] → es.length ≤ fuel →
      parseEntriesLoop fuel (serializeSep es ++ arrClose) = some es := by
  intro es
  induction es with
  | nil => intro fuel hne _; exact absurd rfl hne
  | cons e rest ih =>
    intro fuel hne hf
    obtain ⟨f, rfl⟩ : ∃ f, fuel = f + 1 := by
      refine ⟨fuel - 1, ?_⟩
      simp only [List.length_cons] at hf
      omega
    cases rest with
    | nil =>
      have hsep : parseLit arrSep arrClose = none := by decide
      have hclose : parseLit arrClose arrClose = some [] := by decide
      rw [show serializeSep [e] = serializeEntry e from rfl]
      simp only [parseEntriesLoop, parseEntryBody_serialize, hsep, hclose]
    | cons e2 r2 =>
      rw [show serializeSep (e :: e2 :: r2) =
          serializeEntry e ++ arrSep ++ serializeSep (e2 :: r2) from rfl]
      rw [show (serializeEntry e ++ arrSep ++ serializeSep (e2 :: r2)) ++ arrClose =
          serializeEntry e ++ (arrSep ++ (serializeSep (e2 :: r2) ++ arrClose)) from by
        simp [List.append_assoc]]
      have hrec : parseEntriesLoop f (serializeSep (e2 :: r2) ++ arrClose) =
          some (e2 :: r2) := by
        apply ih f (by simp)
        simp only [List.length_cons] at hf ⊢
        omega
      simp only [parseEntriesLoop, parseEntryBody_serialize, parseLit_append, hrec]

/-- C5: the export payload serializes exactly the entry list (the
adjustments record does not influence it), and parsing the payload back
yields the same (color, name) entries in the same order as the session
palette at the time of export. -/
theorem exportSnapshot_roundTrip (s : Session) :
    parseExport (exportSnapshot s) = some s.palette ∧
    ∀ adj : Adjustments, exportSnapshot ⟨s.palette, adj⟩ = exportSnapshot s := by
  constructor
  · cases hp : s.palette with
    | nil =>
      rw [show exportSnapshot s = ['[', ']'] from by simp [exportSnapshot, hp]]
      simp [parseExport]
    | cons e rest =>
      have h1 : exportSnapshot s = arrOpen ++ (serializeSep (e :: rest) ++ arrClose) := by
        simp [exportSnapshot, hp, List.append_assoc]
      rw [h1]
      have hne : arrOpen ++ (serializeSep (e :: rest) ++ arrClose) ≠ ['[', ']'] := by
        intro h
        have hlen := congrArg List.length h
        simp only [arrOpen, arrClose, List.length_append, List.length_cons,
          List.length_nil] at hlen
        omega
      unfold parseExport
      rw [if_neg hne, parseLit_append]
      have hfuel : (e :: rest).length ≤ (serializeSep (e :: rest) ++ arrClose).length + 1 := by
        have h2 := serializeSep_length (e :: rest)
        simp only [List.length_append]
        omega
      exact parseEntriesLoop_serialize (e :: rest) _ (by simp) hfuel
  · intro adj
    rfl
